import Mathlib

/-!
Shallow embedding of the insweb file server (src/server.js and its
near-duplicate variants under src/unnamed/).  Strings are modelled as
`List Char`; the filesystem as a list of absolute paths, each path a
list of segments (`List (List Char)`).  All state-passing is explicit.
-/

namespace InswebFileServer

/-- The 62-character alphabet used by `generateCustomID`
(`"ABCDEFGHIJKLMNOPQRSTUVWXYZabcdefghijklmnopqrstuvwxyz0123456789"`
in src/server.js). -/
def chars62 : List Char :=
  "ABCDEFGHIJKLMNOPQRSTUVWXYZabcdefghijklmnopqrstuvwxyz0123456789".toList

/-- One base-36 digit character, lowercase, as produced by JavaScript
`Number.prototype.toString(36)` (digits `0-9` then `a-z`). -/
def digitChar36 (d : Nat) : Char :=
  if d < 10 then Char.ofNat (48 + d) else Char.ofNat (87 + d)

/-- Most-significant-first base-36 digit list of `n` (empty for 0),
the digit sequence underlying JavaScript `n.toString(36)`. -/
def toDigits36 (n : Nat) : List Char :=
  if h : n = 0 then []
  else toDigits36 (n / 36) ++ [digitChar36 (n % 36)]
decreasing_by exact Nat.div_lt_self (Nat.pos_of_ne_zero h) (by decide)

/-- JavaScript `n.toString(36)` for a natural number `n`
(`Date.now()` is a nonnegative integer). -/
def toString36 (n : Nat) : List Char :=
  if n = 0 then ['0'] else toDigits36 n

/-- Numeric value of one base-36 digit character (inverse of `digitChar36`). -/
def digitVal36 (c : Char) : Nat :=
  if c.toNat < 97 then c.toNat - 48 else c.toNat - 87

/-- Decode a base-36 digit string back to a natural number. -/
def ofDigits36 (l : List Char) : Nat :=
  l.foldl (fun a c => a * 36 + digitVal36 c) 0

/-- `generateCustomID` from src/server.js.  The stream of
`Math.floor(Math.random() * chars.length)` draws is passed in as
`pick : Nat → Fin 62` (call `i` yields `pick i`), and the clock reading
`Date.now()` as `now`.  Returns the random part followed by the base-36
encoded time. -/
def generateCustomID (length : Nat) (pick : Nat → Fin 62) (now : Nat) : List Char :=
  ((List.range length).map (fun i => chars62.getD (pick i).val 'A')) ++ toString36 now

/-- Whether a character lies in the regex class `[a-zA-Z0-9.-]` of the
sanitizer in src/server.js `storage.filename`. -/
def isAllowedChar (c : Char) : Bool :=
  ('a' ≤ c && c ≤ 'z') || ('A' ≤ c && c ≤ 'Z') || ('0' ≤ c && c ≤ '9')
    || c = '.' || c = '-'

/-- `file.originalname.replace(/[^a-zA-Z0-9.-]/g, "_")` from
src/server.js: every character outside `[a-zA-Z0-9.-]` becomes `_`. -/
def sanitizeFileName (s : List Char) : List Char :=
  s.map (fun c => if isAllowedChar c then c else '_')

/-- The stored name built by src/server.js `storage.filename`:
`` `${generateCustomID()}-${sanitizedFileName}` `` with the default
random length 8. -/
def storedFileName (pick : Nat → Fin 62) (now : Nat) (originalName : List Char) :
    List Char :=
  generateCustomID 8 pick now ++ '-' :: sanitizeFileName originalName

/-- A safe single filesystem path segment: nonempty, free of path
separators, and not a self- or parent-directory reference. -/
def isSafeSegment (s : List Char) : Bool :=
  s ≠ [] && s.all (fun c => c ≠ '/' && c ≠ '\\') && s ≠ ['.'] && s ≠ ['.', '.']

/-- An absolute path, as a list of segments from the filesystem root. -/
abbrev AbsPath := List (List Char)

/-- The filesystem: the set of existing files, each named by its
absolute path. -/
abbrev FS := List AbsPath

/-- Split a character list at `/` separators (the segments of a relative
path string, as Node's path resolution sees them). -/
def splitSeg : List Char → List (List Char)
  | [] => [[]]
  | '/' :: rest => [] :: splitSeg rest
  | c :: rest =>
    match splitSeg rest with
    | [] => [[c]]
    | s :: ss => (c :: s) :: ss

/-- One normalization step of Node's `path.join`: empty and `.` segments
vanish, `..` pops the last segment (staying at the root when there is
nothing to pop, as for absolute paths), any other segment is appended. -/
def joinStep (acc : List (List Char)) (seg : List Char) : List (List Char) :=
  if seg = [] || seg = ['.'] then acc
  else if seg = ['.', '.'] then acc.dropLast
  else acc ++ [seg]

/-- Node's `path.join(base, rel)` for an absolute `base`: concatenate and
normalize `.`/`..`/empty segments. -/
def pathJoin (base : AbsPath) (rel : List Char) : AbsPath :=
  (splitSeg rel).foldl joinStep base

/-- Whether absolute path `p` lies at or below directory `root`. -/
def isUnder (root p : AbsPath) : Bool :=
  decide (p.take root.length = root)

/-- Outcome of the `DELETE /delete` handler: HTTP status, the `success`
flag and `message` of the JSON response, the filesystem afterwards, and
the list of paths passed to `fs.access`/`fs.unlink`. -/
structure DeleteResult where
  status : Nat
  success : Bool
  message : String
  fsAfter : FS
  touched : List AbsPath
deriving DecidableEq, Repr

/-- The `DELETE /delete` handler of src/server.js: reject a falsy
`fileName` (absent or empty string) with 400; otherwise
`path.join(UPLOADS_DIR, fileName)`, `fs.access` (404 when absent), then
`fs.unlink` (modelled under normal conditions: unlink of an existing
file succeeds).  No path-containment check is performed. -/
def deleteHandler (uploadsDir : AbsPath) (fs : FS) (fileName : Option (List Char)) :
    DeleteResult :=
  match fileName with
  | none => ⟨400, false, "File name is required", fs, []⟩
  | some name =>
    if name = [] then ⟨400, false, "File name is required", fs, []⟩
    else
      let filePath := pathJoin uploadsDir name
      if filePath ∈ fs then
        ⟨200, true, "File deleted successfully", fs.erase filePath, [filePath]⟩
      else
        ⟨404, false, "File not found", fs, [filePath]⟩

/-- The `allowedTypes` list of src/server.js `upload.fileFilter`. -/
def allowedTypes : List String :=
  ["image/png", "image/jpeg", "image/jpg", "application/pdf",
   "application/vnd.openxmlformats-officedocument.wordprocessingml.document",
   "application/msword",
   "application/vnd.openxmlformats-officedocument.spreadsheetml.sheet",
   "application/vnd.ms-excel"]

/-- src/server.js `upload.fileFilter`: reject a declared type outside
`allowedTypes` with `Error("Unsupported file type")`, accept otherwise. -/
def fileFilter (mimetype : String) : Except String Unit :=
  if allowedTypes.contains mimetype then Except.ok ()
  else Except.error "Unsupported file type"

/-- The `limits.fileSize` ceiling of src/server.js: 40 MiB. -/
def maxUploadBytes : Nat := 40 * 1024 * 1024

/-- Upload failure taxonomy members relevant to the placer. -/
inductive UploadError where
  | unsupportedType
  | tooLarge
deriving DecidableEq, Repr

/-- Modelled from the spec: multer's upload dispatch is library code not
under src/; src/server.js only configures it with `fileFilter` and
`limits.fileSize`.  Per the spec's Storage Placer contract, `fileFilter`
runs before any disk write, the size ceiling is enforced during
streaming with the partial file removed on abort, and on success the
stored name from `storage.filename` is written under the storage root. -/
def place (uploadsDir : AbsPath) (fs : FS) (mimetype : String) (size : Nat)
    (pick : Nat → Fin 62) (now : Nat) (originalName : List Char) :
    Except UploadError (List Char) × FS :=
  match fileFilter mimetype with
  | Except.error _ => (Except.error UploadError.unsupportedType, fs)
  | Except.ok _ =>
    if maxUploadBytes < size then (Except.error UploadError.tooLarge, fs)
    else
      let sn := storedFileName pick now originalName
      (Except.ok sn, fs ++ [uploadsDir ++ [sn]])

/-! ### Helper lemmas -/

theorem chars62_getD_mem (k : Nat) : chars62.getD k 'A' ∈ chars62 := by
  by_cases h : k < chars62.length
  · rw [List.getD_eq_getElem _ _ h]
    exact List.getElem_mem h
  · rw [List.getD_eq_default _ _ (Nat.le_of_not_lt h)]
    decide

theorem mem_toDigits36 (n : Nat) :
    ∀ c ∈ toDigits36 n, ∃ d, d < 36 ∧ c = digitChar36 d := by
  induction n using Nat.strong_induction_on with
  | _ n ih =>
    rw [toDigits36]
    split
    · simp
    · rename_i hn
      intro c hc
      rcases List.mem_append.mp hc with h | h
      · exact ih (n / 36) (Nat.div_lt_self (Nat.pos_of_ne_zero hn) (by decide)) c h
      · refine ⟨n % 36, Nat.mod_lt _ (by decide), ?_⟩
        simpa using h

theorem mem_toString36 (n : Nat) :
    ∀ c ∈ toString36 n, ∃ d, d < 36 ∧ c = digitChar36 d := by
  unfold toString36
  split
  · intro c hc
    refine ⟨0, by decide, ?_⟩
    simpa [digitChar36] using hc
  · exact mem_toDigits36 n

theorem mem_generateCustomID (len : Nat) (pick : Nat → Fin 62) (now : Nat) :
    ∀ c ∈ generateCustomID len pick now,
      c ∈ chars62 ∨ ∃ d, d < 36 ∧ c = digitChar36 d := by
  intro c hc
  rcases List.mem_append.mp hc with h | h
  · rcases List.mem_map.mp h with ⟨i, _, hi⟩
    exact Or.inl (hi ▸ chars62_getD_mem (pick i).val)
  · exact Or.inr (mem_toString36 now c h)

theorem digitChar36_ne_special :
    ∀ d, d < 36 → digitChar36 d ≠ '-' ∧ digitChar36 d ≠ '/' ∧ digitChar36 d ≠ '\\' := by
  decide

theorem chars62_ne_special :
    ∀ c ∈ chars62, c ≠ '-' ∧ c ≠ '/' ∧ c ≠ '\\' := by
  decide

theorem generateCustomID_ne_special (len : Nat) (pick : Nat → Fin 62) (now : Nat) :
    ∀ c ∈ generateCustomID len pick now, c ≠ '-' ∧ c ≠ '/' ∧ c ≠ '\\' := by
  intro c hc
  rcases mem_generateCustomID len pick now c hc with h | ⟨d, hd, rfl⟩
  · exact chars62_ne_special c h
  · exact digitChar36_ne_special d hd

theorem mem_sanitizeFileName (s : List Char) :
    ∀ c ∈ sanitizeFileName s, isAllowedChar c = true ∨ c = '_' := by
  intro c hc
  rcases List.mem_map.mp hc with ⟨a, _, ha⟩
  by_cases h : isAllowedChar a = true
  · left; rw [← ha]; simpa [h]
  · right; rw [← ha]; simp [h]

theorem sanitizeFileName_no_sep (s : List Char) :
    ∀ c ∈ sanitizeFileName s, c ≠ '/' ∧ c ≠ '\\' := by
  intro c hc
  rcases mem_sanitizeFileName s c hc with h | rfl
  · constructor <;> rintro rfl <;> simp [isAllowedChar] at h
  · decide

theorem digitVal36_digitChar36 : ∀ d, d < 36 → digitVal36 (digitChar36 d) = d := by
  decide

theorem ofDigits36_toDigits36 (n : Nat) : ofDigits36 (toDigits36 n) = n := by
  induction n using Nat.strong_induction_on with
  | _ n ih =>
    rw [toDigits36]
    split
    · rename_i hn
      simp [ofDigits36, hn]
    · rename_i hn
      rw [ofDigits36, List.foldl_append]
      have h1 : (toDigits36 (n / 36)).foldl (fun a c => a * 36 + digitVal36 c) 0 = n / 36 :=
        ih (n / 36) (Nat.div_lt_self (Nat.pos_of_ne_zero hn) (by decide))
      simp only [h1, List.foldl_cons, List.foldl_nil]
      rw [digitVal36_digitChar36 (n % 36) (Nat.mod_lt _ (by decide))]
      omega

theorem ofDigits36_toString36 (n : Nat) : ofDigits36 (toString36 n) = n := by
  unfold toString36
  split
  · rename_i hn
    subst hn
    decide
  · exact ofDigits36_toDigits36 n

theorem length_randomPart (len : Nat) (pick : Nat → Fin 62) :
    ((List.range len).map (fun i => chars62.getD (pick i).val 'A')).length = len := by
  simp

theorem drop_generateCustomID (len : Nat) (pick : Nat → Fin 62) (now : Nat) :
    (generateCustomID len pick now).drop len = toString36 now := by
  unfold generateCustomID
  exact List.drop_left' (length_randomPart len pick)

theorem take_generateCustomID (len : Nat) (pick : Nat → Fin 62) (now : Nat) :
    (generateCustomID len pick now).take len =
      (List.range len).map (fun i => chars62.getD (pick i).val 'A') := by
  unfold generateCustomID
  exact List.take_left' (length_randomPart len pick)

theorem toString36_length_pos (n : Nat) : 0 < (toString36 n).length := by
  unfold toString36
  split
  · decide
  · rename_i hn
    rw [toDigits36]
    simp [hn]

theorem length_generateCustomID (len : Nat) (pick : Nat → Fin 62) (now : Nat) :
    (generateCustomID len pick now).length = len + (toString36 now).length := by
  simp [generateCustomID]

theorem takeWhile_append_cons (p : Char → Bool) (l1 l2 : List Char) (x : Char)
    (h1 : ∀ c ∈ l1, p c = true) (hx : p x = false) :
    (l1 ++ x :: l2).takeWhile p = l1 := by
  induction l1 with
  | nil => simp [List.takeWhile, hx]
  | cons a as ih =>
    have ha : p a = true := h1 a (List.mem_cons_self a as)
    simp only [List.cons_append, List.takeWhile_cons, ha, if_true]
    rw [ih fun c hc => h1 c (List.mem_cons_of_mem a hc)]

theorem splitSeg_no_slash (name : List Char) (h : '/' ∉ name) :
    splitSeg name = [name] := by
  induction name with
  | nil => rfl
  | cons c cs ih =>
    have hc : c ≠ '/' := fun hcc => h (hcc ▸ List.mem_cons_self c cs)
    have hcs : '/' ∉ cs := fun hmem => h (List.mem_cons_of_mem c hmem)
    rw [splitSeg.eq_def]
    split
    · rename_i heq; exact absurd heq (by simp)
    · rename_i heq
      exact absurd (List.cons.inj heq).1 hc
    · rename_i c' rest heq _ heq2
      injection heq2 with h1 h2
      subst h1; subst h2
      rw [ih hcs]

theorem pathJoin_safe (dir : AbsPath) (name : List Char)
    (h : isSafeSegment name = true) : pathJoin dir name = dir ++ [name] := by
  simp only [isSafeSegment, Bool.and_eq_true, decide_eq_true_eq, List.all_eq_true] at h
  obtain ⟨⟨⟨hne, hall⟩, hdot⟩, hdotdot⟩ := h
  have hslash : '/' ∉ name := by
    intro hmem
    have := hall '/' hmem
    simp at this
  unfold pathJoin
  rw [splitSeg_no_slash name hslash]
  simp [joinStep, hne, hdot, hdotdot]

theorem sanitizeFileName_getD (s : List Char) (i : Nat) (h : i < s.length) :
    (sanitizeFileName s).getD i 'x' =
      if isAllowedChar (s.getD i 'x') then s.getD i 'x' else '_' := by
  induction s generalizing i with
  | nil => simp at h
  | cons c cs ih =>
    cases i with
    | zero => simp [sanitizeFileName]
    | succ n =>
      simp only [sanitizeFileName, List.map_cons, List.getD_cons_succ]
      simpa [sanitizeFileName] using ih n (by simpa using h)

/-- A fixed stream of random draws used to instantiate witnesses. -/
def pickZero : Nat → Fin 62 := fun _ => ⟨0, by omega⟩

/-! ### Claim theorems -/

/-- Claim C1: the spec requires the delete operation to reject any
`requestedName` containing a parent-directory traversal sequence with
`invalid_name` (HTTP 400) before any filesystem access.  The code has no
such check: with the storage root at `/app/uploads` and `/etc/passwd`
existing, the request `{"fileName": "../../etc/passwd"}` resolves outside
the storage root, is accessed and unlinked, and the handler answers
HTTP 200 — the traversal escapes the root. -/
theorem delete_traversal_escapes_root :
    deleteHandler ["app".toList, "uploads".toList]
        [["etc".toList, "passwd".toList]] (some "../../etc/passwd".toList) =
      ⟨200, true, "File deleted successfully", [], [["etc".toList, "passwd".toList]]⟩ ∧
    isUnder ["app".toList, "uploads".toList] ["etc".toList, "passwd".toList] = false := by
  constructor
  · decide
  · decide

/-- Claim C2: sanitization replaces exactly the characters outside
`[A-Za-z0-9.-]` with `_` and leaves characters inside the class
unchanged, preserving length and positions. -/
theorem sanitize_exact (s : List Char) :
    (sanitizeFileName s).length = s.length ∧
    ∀ i, i < s.length →
      (sanitizeFileName s).getD i 'x' =
        if isAllowedChar (s.getD i 'x') then s.getD i 'x' else '_' :=
  ⟨by simp [sanitizeFileName], fun i h => sanitizeFileName_getD s i h⟩

theorem sanitize_exact_witness :
    1 < ("a b".toList).length ∧
    (sanitizeFileName "a b".toList).getD 1 'x' =
      (if isAllowedChar (("a b".toList).getD 1 'x') then ("a b".toList).getD 1 'x'
       else '_') :=
  ⟨by decide, (sanitize_exact "a b".toList).2 1 (by decide)⟩

/-- Claim C3: whatever the caller-supplied original name, the stored name
`identifier + "-" + sanitizedName` is a single safe filesystem path
segment: nonempty, free of path separators, and not a self- or
parent-directory reference. -/
theorem storedFileName_safe (pick : Nat → Fin 62) (now : Nat) (originalName : List Char) :
    isSafeSegment (storedFileName pick now originalName) = true := by
  have hlen : 10 ≤ (storedFileName pick now originalName).length := by
    simp only [storedFileName, List.length_append, List.length_cons,
      length_generateCustomID]
    have := toString36_length_pos now
    omega
  have hmem : ∀ c ∈ storedFileName pick now originalName, c ≠ '/' ∧ c ≠ '\\' := by
    intro c hc
    rcases List.mem_append.mp hc with h | h
    · exact (generateCustomID_ne_special 8 pick now c h).2
    · rcases List.mem_cons.mp h with rfl | h2
      · exact ⟨by decide, by decide⟩
      · exact sanitizeFileName_no_sep originalName c h2
  simp only [isSafeSegment, Bool.and_eq_true, decide_eq_true_eq, List.all_eq_true]
  refine ⟨⟨⟨?_, ?_⟩, ?_⟩, ?_⟩
  · intro hnil
    rw [hnil] at hlen
    simp at hlen
  · intro c hc
    obtain ⟨h1, h2⟩ := hmem c hc
    simp [h1, h2]
  · intro hdot
    have := congrArg List.length hdot
    simp at this
    omega
  · intro hdd
    have := congrArg List.length hdd
    simp at this
    omega

/-- Claim C4: `generateCustomID length pick now` is exactly `length`
characters from the 62-character alphabet, immediately followed by the
base-36 encoding of the clock reading, and nothing else; it contains no
`-` character. -/
theorem generateCustomID_shape (len : Nat) (pick : Nat → Fin 62) (now : Nat) :
    (generateCustomID len pick now).length = len + (toString36 now).length ∧
    (∀ c ∈ (generateCustomID len pick now).take len, c ∈ chars62) ∧
    (generateCustomID len pick now).drop len = toString36 now ∧
    '-' ∉ generateCustomID len pick now := by
  refine ⟨length_generateCustomID len pick now, ?_,
    drop_generateCustomID len pick now, ?_⟩
  · intro c hc
    rw [take_generateCustomID] at hc
    rcases List.mem_map.mp hc with ⟨i, _, hi⟩
    exact hi ▸ chars62_getD_mem (pick i).val
  · intro hc
    exact (generateCustomID_ne_special len pick now '-' hc).1 rfl

theorem generateCustomID_shape_witness :
    'A' ∈ (generateCustomID 2 pickZero 37).take 2 ∧ 'A' ∈ chars62 :=
  ⟨by decide, (generateCustomID_shape 2 pickZero 37).2.1 'A' (by decide)⟩

/-- Claim C5: a declared type outside the configured allow-list is
rejected (`Unsupported file type`, the spec's `unsupported_type`) and no
file is created under the storage root; a declared type inside the
allow-list is accepted by the filter. -/
theorem fileFilter_allowlist (t : String) :
    (allowedTypes.contains t = false →
      fileFilter t = Except.error "Unsupported file type" ∧
      ∀ (dir : AbsPath) (fs : FS) (size : Nat) (pick : Nat → Fin 62) (now : Nat)
        (name : List Char),
        place dir fs t size pick now name =
          (Except.error UploadError.unsupportedType, fs)) ∧
    (allowedTypes.contains t = true → fileFilter t = Except.ok ()) := by
  constructor
  · intro h
    have h2 : t ∉ allowedTypes := by simpa using h
    have hf : fileFilter t = Except.error "Unsupported file type" := by
      simp [fileFilter, h2]
    exact ⟨hf, fun dir fs size pick now name => by simp [place, hf]⟩
  · intro h
    have h2 : t ∈ allowedTypes := by simpa using h
    simp [fileFilter, h2]

theorem fileFilter_allowlist_witness :
    allowedTypes.contains "text/html" = false ∧
    place [] [] "text/html" 0 pickZero 0 [] =
      (Except.error UploadError.unsupportedType, []) ∧
    allowedTypes.contains "image/png" = true ∧
    fileFilter "image/png" = Except.ok () :=
  ⟨by decide,
   ((fileFilter_allowlist "text/html").1 (by decide)).2 [] [] 0 pickZero 0 [],
   by decide,
   (fileFilter_allowlist "image/png").2 (by decide)⟩

/-- Claim C6: when the body size exceeds the 40 MiB ceiling, the upload
yields no stored name and leaves the filesystem unchanged (the partial
file is removed); when the declared type is allow-listed, the reported
error is `too_large`. -/
theorem sizeLimit_aborts (dir : AbsPath) (fs : FS) (t : String) (size : Nat)
    (pick : Nat → Fin 62) (now : Nat) (name : List Char)
    (h : maxUploadBytes < size) :
    ((place dir fs t size pick now name).2 = fs ∧
      ∀ sn, (place dir fs t size pick now name).1 ≠ Except.ok sn) ∧
    (allowedTypes.contains t = true →
      (place dir fs t size pick now name).1 = Except.error UploadError.tooLarge) := by
  by_cases hc : allowedTypes.contains t = true
  · have hc2 : t ∈ allowedTypes := by simpa using hc
    have hf : fileFilter t = Except.ok () := by simp [fileFilter, hc2]
    have hp : place dir fs t size pick now name =
        (Except.error UploadError.tooLarge, fs) := by
      simp [place, hf, h]
    rw [hp]
    exact ⟨⟨rfl, fun sn => by simp⟩, fun _ => rfl⟩
  · have hc2 : t ∉ allowedTypes := by simpa using hc
    have hf : fileFilter t = Except.error "Unsupported file type" := by
      simp [fileFilter, hc2]
    have hp : place dir fs t size pick now name =
        (Except.error UploadError.unsupportedType, fs) := by
      simp [place, hf]
    rw [hp]
    exact ⟨⟨rfl, fun sn => by simp⟩, fun ht => absurd ht hc⟩

theorem sizeLimit_aborts_witness :
    maxUploadBytes < 41943041 ∧
    allowedTypes.contains "image/png" = true ∧
    (place [] [] "image/png" 41943041 pickZero 0 []).1 =
      Except.error UploadError.tooLarge :=
  ⟨by decide, by decide,
   (sizeLimit_aborts [] [] "image/png" 41943041 pickZero 0 [] (by decide)).2 (by decide)⟩

/-- Claim C7: a delete request with an absent or empty `fileName` answers
HTTP 400 with message `File name is required`, touches no path, and
leaves the filesystem unchanged. -/
theorem missingName_rejected (uploadsDir : AbsPath) (fs : FS) :
    deleteHandler uploadsDir fs none =
      ⟨400, false, "File name is required", fs, []⟩ ∧
    deleteHandler uploadsDir fs (some []) =
      ⟨400, false, "File name is required", fs, []⟩ :=
  ⟨rfl, by simp [deleteHandler]⟩

/-- Claim C8: deleting a stored name present in the storage root twice in
sequence yields success (HTTP 200, `File deleted successfully`) then
`not_found` (HTTP 404, `File not found`), never HTTP 500; the second call
leaves the filesystem unchanged. -/
theorem remove_idempotent (uploadsDir : AbsPath) (fs : FS) (name : List Char)
    (hnd : fs.Nodup) (hsafe : isSafeSegment name = true)
    (hmem : uploadsDir ++ [name] ∈ fs) :
    deleteHandler uploadsDir fs (some name) =
      ⟨200, true, "File deleted successfully",
        fs.erase (uploadsDir ++ [name]), [uploadsDir ++ [name]]⟩ ∧
    deleteHandler uploadsDir (fs.erase (uploadsDir ++ [name])) (some name) =
      ⟨404, false, "File not found",
        fs.erase (uploadsDir ++ [name]), [uploadsDir ++ [name]]⟩ := by
  have hne : name ≠ [] := by
    simp only [isSafeSegment, Bool.and_eq_true, decide_eq_true_eq] at hsafe
    exact hsafe.1.1.1
  have hj := pathJoin_safe uploadsDir name hsafe
  have hnotmem : uploadsDir ++ [name] ∉ fs.erase (uploadsDir ++ [name]) := by
    intro hmem2
    exact ((List.Nodup.mem_erase_iff hnd).mp hmem2).1 rfl
  constructor
  · simp [deleteHandler, hne, hj, hmem]
  · simp [deleteHandler, hne, hj, hnotmem]

theorem remove_idempotent_witness :
    ([["app".toList, "uploads".toList, "x.png".toList]] : FS).Nodup ∧
    isSafeSegment "x.png".toList = true ∧
    ["app".toList, "uploads".toList] ++ ["x.png".toList] ∈
      ([["app".toList, "uploads".toList, "x.png".toList]] : FS) ∧
    deleteHandler ["app".toList, "uploads".toList]
        [["app".toList, "uploads".toList, "x.png".toList]] (some "x.png".toList) =
      ⟨200, true, "File deleted successfully",
        ([["app".toList, "uploads".toList, "x.png".toList]] : FS).erase
          (["app".toList, "uploads".toList] ++ ["x.png".toList]),
        [["app".toList, "uploads".toList] ++ ["x.png".toList]]⟩ :=
  ⟨by decide, by decide, by decide,
   (remove_idempotent ["app".toList, "uploads".toList]
     [["app".toList, "uploads".toList, "x.png".toList]] "x.png".toList
     (by decide) (by decide) (by decide)).1⟩

/-- Claim C9: across two identifier generations with clock readings
`t1 ≤ t2`, the timestamp-derived suffix (the part after the fixed-length
random prefix), read back as a base-36 number, is monotonically
non-decreasing. -/
theorem timestampSuffix_monotone (p1 p2 : Nat → Fin 62) (t1 t2 : Nat) (h : t1 ≤ t2) :
    ofDigits36 ((generateCustomID 8 p1 t1).drop 8) ≤
      ofDigits36 ((generateCustomID 8 p2 t2).drop 8) := by
  rw [drop_generateCustomID, drop_generateCustomID, ofDigits36_toString36,
    ofDigits36_toString36]
  exact h

theorem timestampSuffix_monotone_witness :
    3 ≤ 5 ∧
    ofDigits36 ((generateCustomID 8 pickZero 3).drop 8) ≤
      ofDigits36 ((generateCustomID 8 pickZero 5).drop 8) :=
  ⟨by decide, timestampSuffix_monotone pickZero pickZero 3 5 (by decide)⟩

/-- Claim C10: the identifier never contains `-`, so the part of a stored
name strictly before the first `-` is exactly the generated identifier,
and the part after it is exactly the sanitized original name — both are
unambiguously recoverable from the stored name. -/
theorem storedFileName_recoverable (pick : Nat → Fin 62) (now : Nat)
    (originalName : List Char) :
    (storedFileName pick now originalName).takeWhile (fun c => c ≠ '-') =
      generateCustomID 8 pick now ∧
    (storedFileName pick now originalName).drop
        ((generateCustomID 8 pick now).length + 1) =
      sanitizeFileName originalName := by
  constructor
  · apply takeWhile_append_cons
    · intro c hc
      simp [(generateCustomID_ne_special 8 pick now c hc).1]
    · simp
  · show (generateCustomID 8 pick now ++ '-' :: sanitizeFileName originalName).drop _ = _
    rw [← List.singleton_append, ← List.append_assoc]
    apply List.drop_left'
    simp

end InswebFileServer
